import Mathlib

/-!
# tldr_web — verification of the logical core

Shallow embedding of the non-view logic of the tldr_web client:
the suggestion engine, the platform-fallback effect, the recent-searches
history, the not-found alternatives data, the submission resolution rule,
and the index cache loader. Each definition mirrors one function or effect
of the TypeScript source; the theorems at the end settle the specification
claims about them.
-/

namespace TldrWeb

/-!
## JavaScript string primitives

`String.prototype.toLowerCase`, `trim` and `startsWith` are modelled
character-wise over the string's character list (the command names and
platform tags handled by this app are ASCII, where the JS methods act
per code point).
-/

/-- JS `s.toLowerCase()`. -/
def jsToLower (s : String) : String := ⟨s.data.map Char.toLower⟩

/-- JS `s.trim()`: strip leading and trailing whitespace. -/
def jsTrim (s : String) : String :=
  ⟨((s.data.dropWhile Char.isWhitespace).reverse.dropWhile Char.isWhitespace).reverse⟩

/-- JS `s.startsWith(pre)`. -/
def jsStartsWith (s pre : String) : Bool := pre.data.isPrefixOf s.data

/-!
## Data model (`types.ts`)
-/

/-- One `{os, language}` target descriptor of the index. -/
structure TldrTarget where
  os : String
  language : String
deriving DecidableEq, Repr

/-- One entry of the command index: a command name together with the
platform tags and natural languages it is filed under. -/
structure TldrCommand where
  name : String
  platform : List String
  language : List String
  targets : List TldrTarget
deriving DecidableEq, Repr

/-- The index document: an ordered collection of command entries. -/
structure TldrIndex where
  commands : List TldrCommand
deriving DecidableEq, Repr

/-- `const PLATFORMS = ['common', 'linux', 'osx', 'windows', 'android', 'sunos']` -/
def PLATFORMS : List String := ["common", "linux", "osx", "windows", "android", "sunos"]

/-!
## Suggestion engine

The suggestion effect of `App`: on a blank (whitespace-only) query the
suggestion list is cleared; otherwise the index is filtered by
case-insensitive prefix match on the name and capped. The cap is 8 in one
revision and 10 in the other, so it is a parameter `limit` here.
-/

/-- Body of the suggestion effect:
`if (!query.trim()) { setSuggestions([]); return }` then
`indexCommands.filter(c => c.name.toLowerCase().startsWith(lowerQuery)).map(c => c.name)`
with `lowerQuery = query.toLowerCase()`, capped by `.slice(0, limit)`. -/
def computeSuggestions (limit : Nat) (query : String) (indexCommands : List TldrCommand) :
    List String :=
  if jsTrim query = "" then []
  else
    let lowerQuery := jsToLower query
    let exactMatches :=
      (indexCommands.filter (fun c => jsStartsWith (jsToLower c.name) lowerQuery)).map
        (fun c => c.name)
    exactMatches.take limit

/-!
## Recent searches
-/

/-- `addToHistory`: `[cmd, ...prev.filter(c => c !== cmd)].slice(0, 8)`. -/
def addToHistory (cmd : String) (prev : List String) : List String :=
  (cmd :: prev.filter (fun c => c != cmd)).take 8

/-!
## Platform fallback ("Smart Platform Switching" effect)

The effect has dependency array `[command, indexCommands]` — `platform` is
deliberately excluded, so the effect runs when the selected command
changes, never when the platform alone changes (in particular never in
reaction to its own `setPlatform` writes).
-/

/-- The slice of `App` state the fallback effect reads and writes. -/
structure AppState where
  command : String
  platform : String
deriving DecidableEq, Repr

/-- The platform the fallback effect leaves selected, given the command's
supported list and the current platform: if the current platform is
supported it is kept (the effect performs no write), otherwise the first
supported one of `common`, `linux`, `osx`, `windows` is chosen, else
`supported[0]`. `supported.headD ""` models `supported[0]`, which in JS is
`undefined` when the list is empty. -/
def pickPlatform (supported : List String) (current : String) : String :=
  if supported.contains current then current
  else if supported.contains "common" then "common"
  else if supported.contains "linux" then "linux"
  else if supported.contains "osx" then "osx"
  else if supported.contains "windows" then "windows"
  else supported.headD ""

/-- Body of the fallback effect: look up the selected command in the index;
when found, leave the platform at `pickPlatform` of its supported list. -/
def runFallback (indexCommands : List TldrCommand) (s : AppState) : AppState :=
  match indexCommands.find? (fun c => c.name == s.command) with
  | none => s
  | some cmdData => { s with platform := pickPlatform cmdData.platform s.platform }

/-- Spec-side description of the fallback choice: the first platform of the
strict priority order `common, linux, osx, windows` that the command
supports, if any. Stated from the spec's words, to be compared with
`runFallback`. -/
def fallbackPriority (supported : List String) : Option String :=
  ["common", "linux", "osx", "windows"].find? (fun p => supported.contains p)

/-- The two state-changing events the fallback claims are about: selecting a
command (search submission or suggestion click) and a manual platform
change (platform chip click). -/
inductive AppEvent where
  | selectCommand : String → AppEvent
  | setPlatformUser : String → AppEvent
deriving DecidableEq, Repr

/-- One event step of `App`. Selecting a command updates `command` and then
runs the fallback effect (its dependency array contains `command`); a manual
platform change only writes `platform` (the dependency array omits
`platform`, so the effect does not run). -/
def appStep (indexCommands : List TldrCommand) (s : AppState) : AppEvent → AppState
  | AppEvent.selectCommand c => runFallback indexCommands { s with command := c }
  | AppEvent.setPlatformUser p => { s with platform := p }

/-!
## Not-found alternatives
-/

/-- `const currentCmdData = indexCommands.find(c => c.name === command);`
`const availablePlatforms = currentCmdData?.platform || PLATFORMS;`
An empty JS array is truthy, so `PLATFORMS` is used exactly when the entry
is missing. -/
def availablePlatforms (indexCommands : List TldrCommand) (command : String) : List String :=
  match indexCommands.find? (fun c => c.name == command) with
  | some cmdData => cmdData.platform
  | none => PLATFORMS

/-- The list the not-found UI actually renders: `availablePlatforms`,
gated by `availablePlatforms.length > 0 && availablePlatforms[0] !== platform`
(when the gate fails, no alternatives block is shown at all). -/
def offeredAlternatives (indexCommands : List TldrCommand) (command platform : String) :
    List String :=
  if 0 < (availablePlatforms indexCommands command).length ∧
      (availablePlatforms indexCommands command).headD "" ≠ platform then
    availablePlatforms indexCommands command
  else []

/-!
## Submission resolution (`handleSearchSubmit`)
-/

/-- The resolved command of `handleSearchSubmit`:
`(suggestions.length > 0 && selectedIndex >= 0 && selectedIndex < suggestions.length) ? suggestions[selectedIndex] : query.trim().toLowerCase()`.
`selectedIndex` is a `Nat` here, so the JS `selectedIndex >= 0` conjunct is
automatic. -/
def resolveSubmit (suggestions : List String) (selectedIndex : Nat) (query : String) : String :=
  if 0 < suggestions.length ∧ selectedIndex < suggestions.length then
    suggestions.getD selectedIndex ""
  else jsToLower (jsTrim query)

/-!
## Suggestion-list navigation state
-/

/-- The autocomplete state the keyboard handler works on. -/
structure SuggestState where
  suggestions : List String
  selectedIndex : Nat
deriving DecidableEq, Repr

/-- The suggestion effect of the `selectedIndex` revision: both branches
recompute `suggestions` and reset `selectedIndex` to 0. -/
def recomputeSuggestions (limit : Nat) (indexCommands : List TldrCommand) (query : String) :
    SuggestState :=
  { suggestions := computeSuggestions limit query indexCommands, selectedIndex := 0 }

/-- The two keys `handleKeyDown` reacts to. -/
inductive ArrowKey where
  | down
  | up
deriving DecidableEq, Repr

/-- `handleKeyDown`: no-op on an empty suggestion list; ArrowDown moves to
`(prev + 1) % length`; ArrowUp moves to `(prev - 1 + length) % length`,
written `(prev + length - 1) % length` which agrees with the JS expression
on natural `prev`. -/
def handleKeyDown (s : SuggestState) (k : ArrowKey) : SuggestState :=
  if s.suggestions.length = 0 then s
  else
    match k with
    | ArrowKey.down =>
      { s with selectedIndex := (s.selectedIndex + 1) % s.suggestions.length }
    | ArrowKey.up =>
      { s with selectedIndex :=
          (s.selectedIndex + s.suggestions.length - 1) % s.suggestions.length }

/-- The highlighted-index invariant: whenever the suggestion list is
non-empty, `selectedIndex` is a valid position. -/
def validIndex (s : SuggestState) : Prop :=
  s.suggestions ≠ [] → s.selectedIndex < s.suggestions.length

/-!
## Index cache loader (`useTldrIndex.ts`)

The `fetcher` is effectful (local storage, clock, network); it is embedded
as a pure function of an explicit environment recording what each external
interaction would yield.
-/

/-- `const CACHE_EXPIRY = 3 * 24 * 60 * 60 * 1000;` -/
def CACHE_EXPIRY : Int := 3 * 24 * 60 * 60 * 1000

/-- The persisted record: `{ data, timestamp }`. -/
structure CachedIndex where
  data : TldrIndex
  timestamp : Int
deriving DecidableEq, Repr

/-- What `localStorage.getItem(CACHE_KEY)` followed by `JSON.parse` yields:
the read may throw (storage disabled), return `null`, throw on parsing, or
produce a well-formed cached record. -/
inductive CacheRead where
  | unavailable : CacheRead
  | missing : CacheRead
  | corrupt : CacheRead
  | valid : CachedIndex → CacheRead
deriving DecidableEq, Repr

/-- The environment of one `fetcher` call: the local-storage read outcome,
the current clock (`Date.now()`), the network outcome (`none` = fetch
failed or non-ok status), and whether `localStorage.setItem` succeeds. -/
structure FetchEnv where
  cache : CacheRead
  now : Int
  network : Option TldrIndex
  writeOk : Bool
deriving DecidableEq, Repr

/-- What one `fetcher` call produces: a returned index, or the thrown
`Failed to fetch index` error. -/
inductive FetchResult where
  | ok : TldrIndex → FetchResult
  | error : FetchResult
deriving DecidableEq, Repr

/-- Outcome of one `fetcher` call: the returned/thrown result together with
the record written to local storage during the call, if any. -/
structure FetchOutcome where
  result : FetchResult
  written : Option CachedIndex
deriving DecidableEq, Repr

/-- The network half of `fetcher`: `fetch` + `res.json()`, then a
best-effort `localStorage.setItem` of `{ data, timestamp: Date.now() }`
whose failure is caught and swallowed. -/
def fetchNetwork (env : FetchEnv) : FetchOutcome :=
  match env.network with
  | none => { result := FetchResult.error, written := none }
  | some d =>
    { result := FetchResult.ok d
      written := if env.writeOk then some { data := d, timestamp := env.now } else none }

/-- `fetcher`: return the cached payload when the read yields a record with
`Date.now() - timestamp < CACHE_EXPIRY`; every other read outcome
(unavailable, missing, corrupt, stale) falls through to the network. -/
def fetcher (env : FetchEnv) : FetchOutcome :=
  match env.cache with
  | CacheRead.valid c =>
    if env.now - c.timestamp < CACHE_EXPIRY then
      { result := FetchResult.ok c.data, written := none }
    else fetchNetwork env
  | _ => fetchNetwork env

/-!
## Concrete fixtures used by witnesses and counterexamples
-/

/-- The spec's suggestion example: commands `git`, `grep`, `go`, `docker`. -/
def demoIndexCommands : List TldrCommand :=
  [{ name := "git", platform := ["common"], language := ["en"], targets := [] },
   { name := "grep", platform := ["common"], language := ["en"], targets := [] },
   { name := "go", platform := ["common"], language := ["en"], targets := [] },
   { name := "docker", platform := ["common"], language := ["en"], targets := [] }]

/-- The spec's fallback example: `curl` supports exactly `linux` and `osx`. -/
def curlEntry : TldrCommand :=
  { name := "curl", platform := ["linux", "osx"], language := ["en"], targets := [] }

/-- A command supporting `linux` and `osx`, used to probe the not-found
alternatives with `osx` as the failed platform. -/
def tarEntry : TldrCommand :=
  { name := "tar", platform := ["linux", "osx"], language := ["en"], targets := [] }

/-- A small index payload for cache-loader witnesses. -/
def demoIndex : TldrIndex := { commands := [curlEntry] }

/-!
## Helper lemmas
-/

/-- Filtering a prefix of an already-filtered list changes nothing. -/
theorem filter_take_filter {α : Type} (p : α → Bool) (l : List α) (n : Nat) :
    ((l.filter p).take n).filter p = (l.filter p).take n := by
  apply List.filter_eq_self.mpr
  intro a ha
  exact (List.mem_filter.mp (List.mem_of_mem_take ha)).2

/-!
## Claims

### C4/C5 — recent searches
-/

/-- **C4.** `addToHistory cmd prev` removes every occurrence of `cmd`,
prepends `cmd`, and truncates to at most 8 entries; its length never
exceeds 8; and recording a 9th distinct name onto a full 8-entry list
drops exactly the oldest (last) entry, keeping 8. -/
theorem addToHistory_spec (cmd : String) (prev : List String) :
    (addToHistory cmd prev).length ≤ 8
    ∧ (addToHistory cmd prev).head? = some cmd
    ∧ (addToHistory cmd prev).tail = (prev.filter (fun c => c != cmd)).take 7
    ∧ (∀ x ∈ (addToHistory cmd prev).tail, x ≠ cmd)
    ∧ (prev.length = 8 → cmd ∉ prev →
        addToHistory cmd prev = cmd :: prev.dropLast
          ∧ (addToHistory cmd prev).length = 8) := by
  have hcons : addToHistory cmd prev
      = cmd :: (prev.filter (fun c => c != cmd)).take 7 := rfl
  refine ⟨?_, ?_, ?_, ?_, ?_⟩
  · rw [addToHistory, List.length_take]
    exact min_le_left _ _
  · rw [hcons]; rfl
  · rw [hcons]; rfl
  · rw [hcons]
    intro x hx
    simp only [List.tail_cons] at hx
    have hpx := (List.mem_filter.mp (List.mem_of_mem_take hx)).2
    simpa using hpx
  · intro h8 hn
    have hf : prev.filter (fun c => c != cmd) = prev := by
      apply List.filter_eq_self.mpr
      intro a ha
      simp only [bne_iff_ne, ne_eq, decide_eq_true_eq]
      exact fun heq => hn (heq ▸ ha)
    constructor
    · rw [hcons, hf, List.dropLast_eq_take, h8]
    · rw [hcons, hf]
      simp [h8]

/-- **C4 (witness).** Recording a 9th distinct name onto a full history of
8 drops the oldest entry and keeps exactly 8. -/
theorem addToHistory_spec_witness :
    (["a", "b", "c", "d", "e", "f", "g", "h"] : List String).length = 8
    ∧ "z" ∉ (["a", "b", "c", "d", "e", "f", "g", "h"] : List String)
    ∧ addToHistory "z" ["a", "b", "c", "d", "e", "f", "g", "h"]
        = "z" :: (["a", "b", "c", "d", "e", "f", "g", "h"] : List String).dropLast
    ∧ (addToHistory "z" ["a", "b", "c", "d", "e", "f", "g", "h"]).length = 8 :=
  ⟨by decide, by decide,
    ((addToHistory_spec "z" ["a", "b", "c", "d", "e", "f", "g", "h"]).2.2.2.2
      (by decide) (by decide)).1,
    ((addToHistory_spec "z" ["a", "b", "c", "d", "e", "f", "g", "h"]).2.2.2.2
      (by decide) (by decide)).2⟩

/-- **C5.** `addToHistory` is idempotent on consecutive calls with the same
name: recording a name twice in a row leaves the history as after the first
call. -/
theorem addToHistory_idem (cmd : String) (prev : List String) :
    addToHistory cmd (addToHistory cmd prev) = addToHistory cmd prev := by
  unfold addToHistory
  have h1 : (cmd :: prev.filter (fun c => c != cmd)).take 8
      = cmd :: (prev.filter (fun c => c != cmd)).take 7 := rfl
  rw [h1]
  rw [List.filter_cons_of_neg (by simp)]
  rw [filter_take_filter]
  show cmd :: ((prev.filter (fun c => c != cmd)).take 7).take 7 = _
  rw [List.take_take]
  simp

/-!
### C1 — suggestion engine
-/

/-- **C1.** For every query and index, the suggestion list is exactly the
ordered subsequence of the index whose names start with the query under
case-insensitive comparison, capped to the first `limit` matches (8 in one
revision, 10 in the other); the list preserves the index's order (it is a
sublist of the index's name list), its length never exceeds the cap, every
member matches the query, and a whitespace-only query yields `[]`. -/
theorem computeSuggestions_spec (limit : Nat) (query : String)
    (indexCommands : List TldrCommand) :
    (jsTrim query = "" → computeSuggestions limit query indexCommands = [])
    ∧ (jsTrim query ≠ "" →
        computeSuggestions limit query indexCommands =
          ((indexCommands.filter
              (fun c => jsStartsWith (jsToLower c.name) (jsToLower query))).map
            (fun c => c.name)).take limit)
    ∧ (computeSuggestions limit query indexCommands).Sublist
        (indexCommands.map (fun c => c.name))
    ∧ (computeSuggestions limit query indexCommands).length ≤ limit
    ∧ (∀ s ∈ computeSuggestions limit query indexCommands,
        jsStartsWith (jsToLower s) (jsToLower query) = true) := by
  refine ⟨?_, ?_, ?_, ?_, ?_⟩
  · intro h
    simp [computeSuggestions, h]
  · intro h
    simp [computeSuggestions, h]
  · by_cases h : jsTrim query = ""
    · simp [computeSuggestions, h]
    · rw [computeSuggestions, if_neg h]
      exact (List.take_sublist _ _).trans (List.Sublist.map _ (List.filter_sublist _))
  · by_cases h : jsTrim query = ""
    · simp [computeSuggestions, h]
    · rw [computeSuggestions, if_neg h]
      rw [List.length_take]
      exact min_le_left _ _
  · intro s hs
    by_cases h : jsTrim query = ""
    · rw [computeSuggestions, if_pos h] at hs
      exact absurd hs (List.not_mem_nil s)
    · rw [computeSuggestions, if_neg h] at hs
      obtain ⟨c, hc, rfl⟩ := List.mem_map.mp (List.mem_of_mem_take hs)
      exact (List.mem_filter.mp hc).2

/-- **C1 (witness).** The spec's example: over the index
`git, grep, go, docker`, query `"g"` with cap 8 yields exactly
`["git", "grep", "go"]` in index order. -/
theorem computeSuggestions_spec_witness :
    jsTrim "g" ≠ ""
    ∧ computeSuggestions 8 "g" demoIndexCommands = ["git", "grep", "go"] :=
  ⟨by decide,
    ((computeSuggestions_spec 8 "g" demoIndexCommands).2.1 (by decide)).trans (by decide)⟩

/-!
### C2 — platform fallback choice
-/

/-- **C2.** When the selected command's index entry is known and its
supported-platform list misses the current platform, the fallback selects
the first platform the command supports in the strict priority order
`common, linux, osx, windows`, and otherwise the command's first listed
supported platform; the chosen platform always belongs to the command's
supported list. -/
theorem runFallback_priority (indexCommands : List TldrCommand) (cmd p : String)
    (entry : TldrCommand)
    (hfind : indexCommands.find? (fun c => c.name == cmd) = some entry)
    (hmiss : entry.platform.contains p = false)
    (hne : entry.platform ≠ []) :
    (runFallback indexCommands { command := cmd, platform := p }).platform
      = (fallbackPriority entry.platform).getD (entry.platform.headD "")
    ∧ (runFallback indexCommands { command := cmd, platform := p }).platform
        ∈ entry.platform := by
  have hrun : runFallback indexCommands { command := cmd, platform := p }
      = { command := cmd, platform := pickPlatform entry.platform p } := by
    unfold runFallback
    rw [hfind]
  rw [hrun]
  show pickPlatform entry.platform p = _ ∧ pickPlatform entry.platform p ∈ entry.platform
  have hp : p ∉ entry.platform := by simpa using hmiss
  obtain ⟨a, t, hat⟩ := List.exists_cons_of_ne_nil hne
  by_cases h1 : "common" ∈ entry.platform
  · exact ⟨by simp [pickPlatform, fallbackPriority, hp, h1, List.find?_cons],
      by simp [pickPlatform, hp, h1]⟩
  · by_cases h2 : "linux" ∈ entry.platform
    · exact ⟨by simp [pickPlatform, fallbackPriority, hp, h1, h2, List.find?_cons],
        by simp [pickPlatform, hp, h1, h2]⟩
    · by_cases h3 : "osx" ∈ entry.platform
      · exact ⟨by simp [pickPlatform, fallbackPriority, hp, h1, h2, h3, List.find?_cons],
          by simp [pickPlatform, hp, h1, h2, h3]⟩
      · by_cases h4 : "windows" ∈ entry.platform
        · exact ⟨by simp [pickPlatform, fallbackPriority, hp, h1, h2, h3, h4, List.find?_cons],
            by simp [pickPlatform, hp, h1, h2, h3, h4]⟩
        · refine ⟨by simp [pickPlatform, fallbackPriority, hp, h1, h2, h3, h4, List.find?_cons],
            ?_⟩
          have hhead : pickPlatform entry.platform p = entry.platform.headD "" := by
            simp [pickPlatform, hp, h1, h2, h3, h4]
          rw [hhead, hat]
          simp

/-- **C2 (witness).** The spec's scenario: `curl` supports exactly
`["linux", "osx"]`; selecting it while the platform is `windows` switches
the platform to `linux` (not `osx`). -/
theorem runFallback_priority_witness :
    ([curlEntry].find? (fun c => c.name == "curl") = some curlEntry)
    ∧ curlEntry.platform.contains "windows" = false
    ∧ (runFallback [curlEntry] { command := "curl", platform := "windows" }).platform
        = "linux" := by
  refine ⟨by decide, by decide, ?_⟩
  exact (runFallback_priority [curlEntry] "curl" "windows" curlEntry (by decide) (by decide)
    (by decide)).1.trans (by decide)

/-!
### C8 — fallback fires only on command changes
-/

/-- The fallback effect never changes the selected command. -/
theorem runFallback_command (indexCommands : List TldrCommand) (s : AppState) :
    (runFallback indexCommands s).command = s.command := by
  unfold runFallback
  cases indexCommands.find? (fun c => c.name == s.command) <;> rfl

/-- The platform the fallback picks is itself left unchanged by a second
application of the same choice. -/
theorem pickPlatform_idem (supported : List String) (current : String) :
    pickPlatform supported (pickPlatform supported current)
      = pickPlatform supported current := by
  by_cases h0 : current ∈ supported
  · simp [pickPlatform, h0]
  · by_cases h1 : "common" ∈ supported
    · simp [pickPlatform, h0, h1]
    · by_cases h2 : "linux" ∈ supported
      · simp [pickPlatform, h0, h1, h2]
      · by_cases h3 : "osx" ∈ supported
        · simp [pickPlatform, h0, h1, h2, h3]
        · by_cases h4 : "windows" ∈ supported
          · simp [pickPlatform, h0, h1, h2, h3, h4]
          · cases supported with
            | nil => simp [pickPlatform]
            | cons a t =>
              have hin : pickPlatform (a :: t) current = a := by
                simp [pickPlatform, h0, h1, h2, h3, h4]
              rw [hin]
              have ha : a ∈ a :: t := List.mem_cons_self a t
              simp [pickPlatform, ha]

/-- Re-running the fallback effect on its own output is a no-op: the
effect's platform write can never re-trigger a further platform rewrite. -/
theorem runFallback_idem (indexCommands : List TldrCommand) (s : AppState) :
    runFallback indexCommands (runFallback indexCommands s)
      = runFallback indexCommands s := by
  cases hres : indexCommands.find? (fun c => c.name == s.command) with
  | none =>
    have h1 : runFallback indexCommands s = s := by
      unfold runFallback; rw [hres]
    rw [h1, h1]
  | some cmdData =>
    have h1 : runFallback indexCommands s
        = { s with platform := pickPlatform cmdData.platform s.platform } := by
      unfold runFallback; rw [hres]
    rw [h1]
    unfold runFallback
    dsimp only
    rw [hres]
    dsimp only
    rw [pickPlatform_idem]

/-- **C8.** The platform-fallback step fires only on command changes: a
manual platform change writes exactly the requested platform and leaves the
command untouched (the effect, keyed on the command, does not run), and
re-running the fallback effect after its own platform write changes
nothing, so no feedback loop is possible. -/
theorem fallback_only_on_command_change (indexCommands : List TldrCommand)
    (s t : AppState) (p : String) :
    appStep indexCommands s (AppEvent.setPlatformUser p) = { s with platform := p }
    ∧ (appStep indexCommands s (AppEvent.setPlatformUser p)).command = s.command
    ∧ runFallback indexCommands (runFallback indexCommands t)
        = runFallback indexCommands t :=
  ⟨rfl, rfl, runFallback_idem indexCommands t⟩

/-!
### C3 — not-found alternative platforms
-/

/-- **C3 (counterexample).** The offered alternative list does NOT exclude
the platform that just failed: for a command supporting
`["linux", "osx"]` whose page fetch failed on `osx`, the UI offers
`["linux", "osx"]` — the failed platform is a member, and the list differs
from the supported list with the failed platform removed. -/
theorem offeredAlternatives_cex :
    offeredAlternatives [tarEntry] "tar" "osx" = ["linux", "osx"]
    ∧ "osx" ∈ offeredAlternatives [tarEntry] "tar" "osx"
    ∧ offeredAlternatives [tarEntry] "tar" "osx"
        ≠ (availablePlatforms [tarEntry] "tar").filter (fun q => q != "osx") := by
  refine ⟨by decide, by decide, by decide⟩

/-- **C3 (amended).** On a document-missing failure the offered list is the
full list of platforms the index claims the command supports, with no
exclusion of the failed platform — the whole alternatives block is shown
exactly when that list is non-empty and its first entry differs from the
failed platform, and suppressed otherwise; when the index has no entry for
the command, `availablePlatforms` is the full fixed vocabulary of exactly
6 entries `common, linux, osx, windows, android, sunos`. -/
theorem availablePlatforms_spec (indexCommands : List TldrCommand)
    (command platform : String) :
    (∀ entry, indexCommands.find? (fun c => c.name == command) = some entry →
      availablePlatforms indexCommands command = entry.platform)
    ∧ (indexCommands.find? (fun c => c.name == command) = none →
        availablePlatforms indexCommands command = PLATFORMS ∧ PLATFORMS.length = 6)
    ∧ (0 < (availablePlatforms indexCommands command).length →
        (availablePlatforms indexCommands command).headD "" ≠ platform →
        offeredAlternatives indexCommands command platform
          = availablePlatforms indexCommands command)
    ∧ ((availablePlatforms indexCommands command).headD "" = platform ∨
          availablePlatforms indexCommands command = [] →
        offeredAlternatives indexCommands command platform = []) := by
  refine ⟨?_, ?_, ?_, ?_⟩
  · intro entry h
    unfold availablePlatforms
    rw [h]
  · intro h
    unfold availablePlatforms
    rw [h]
    exact ⟨rfl, rfl⟩
  · intro hlen hhead
    unfold offeredAlternatives
    rw [if_pos ⟨hlen, hhead⟩]
  · intro h
    unfold offeredAlternatives
    rw [if_neg]
    rcases h with h | h
    · rintro ⟨_, hne⟩
      exact hne h
    · rintro ⟨hlen, _⟩
      rw [h] at hlen
      exact absurd hlen (by simp)

/-- **C3 (witness).** The spec's scenario: `frobnicate` is unknown to the
index, so `availablePlatforms` is the full 6-entry fixed vocabulary. -/
theorem availablePlatforms_spec_witness :
    ([tarEntry].find? (fun c => c.name == "frobnicate") = none)
    ∧ availablePlatforms [tarEntry] "frobnicate" = PLATFORMS
    ∧ PLATFORMS.length = 6 :=
  ⟨by decide,
    (availablePlatforms_spec [tarEntry] "frobnicate" "common").2.1 (by decide)⟩

/-!
### C9 — submission resolution
-/

/-- **C9.** On search submission, if a suggestion is currently highlighted
(the highlight index is a valid position of a non-empty suggestion list),
the resolved command is that suggestion's exact name; otherwise the
resolved command is the raw query trimmed and lowercased. -/
theorem resolveSubmit_spec (suggestions : List String) (selectedIndex : Nat)
    (query : String) :
    (∀ h : selectedIndex < suggestions.length,
      resolveSubmit suggestions selectedIndex query = suggestions.get ⟨selectedIndex, h⟩)
    ∧ (suggestions.length ≤ selectedIndex →
        resolveSubmit suggestions selectedIndex query = jsToLower (jsTrim query)) := by
  constructor
  · intro h
    unfold resolveSubmit
    rw [if_pos ⟨Nat.lt_of_le_of_lt (Nat.zero_le _) h, h⟩]
    simp [List.getD_eq_getElem?_getD, List.getElem?_eq_getElem h]
  · intro h
    unfold resolveSubmit
    rw [if_neg]
    rintro ⟨_, hlt⟩
    omega

/-- **C9 (witness).** With suggestions `["git", "grep", "go"]` and the
second entry highlighted, submitting resolves to `"grep"` regardless of the
raw query text. -/
theorem resolveSubmit_spec_witness :
    (1 : Nat) < (["git", "grep", "go"] : List String).length
    ∧ resolveSubmit ["git", "grep", "go"] 1 "G " = "grep" :=
  ⟨by decide, ((resolveSubmit_spec ["git", "grep", "go"] 1 "G ").1 (by decide)).trans rfl⟩

/-!
### C10 — highlighted-index invariant
-/

/-- One arrow key preserves validity of the highlighted index. -/
theorem validIndex_handleKeyDown (s : SuggestState) (k : ArrowKey) (hv : validIndex s) :
    validIndex (handleKeyDown s k) := by
  unfold handleKeyDown
  by_cases h : s.suggestions.length = 0
  · rw [if_pos h]
    exact hv
  · rw [if_neg h]
    have hpos : 0 < s.suggestions.length := Nat.pos_of_ne_zero h
    cases k <;> exact fun _ => Nat.mod_lt _ hpos

/-- Any sequence of arrow keys preserves validity of the highlighted index. -/
theorem validIndex_foldl (keys : List ArrowKey) (s : SuggestState) (hv : validIndex s) :
    validIndex (keys.foldl handleKeyDown s) := by
  induction keys generalizing s with
  | nil => exact hv
  | cons k ks ih => exact ih _ (validIndex_handleKeyDown s k hv)

/-- **C10.** The highlighted-suggestion index is always a valid position of
a non-empty suggestion list: every recomputation of the list resets it to
0, each arrow key moves it modulo the list length — wrapping from the last
entry to the first on ArrowDown and from the first to the last on
ArrowUp — so after a recomputation followed by any sequence of arrow keys
the index stays inside `[0, length − 1]`. -/
theorem selectedIndex_invariant (limit : Nat) (indexCommands : List TldrCommand)
    (query : String) (s : SuggestState) (k : ArrowKey) (keys : List ArrowKey) :
    (recomputeSuggestions limit indexCommands query).selectedIndex = 0
    ∧ (validIndex s → validIndex (handleKeyDown s k))
    ∧ validIndex (keys.foldl handleKeyDown (recomputeSuggestions limit indexCommands query))
    ∧ (s.suggestions ≠ [] → s.selectedIndex = s.suggestions.length - 1 →
        (handleKeyDown s ArrowKey.down).selectedIndex = 0)
    ∧ (s.suggestions ≠ [] → s.selectedIndex = 0 →
        (handleKeyDown s ArrowKey.up).selectedIndex = s.suggestions.length - 1) := by
  refine ⟨rfl, validIndex_handleKeyDown s k, ?_, ?_, ?_⟩
  · apply validIndex_foldl
    intro h
    exact List.length_pos.mpr h
  · intro hne hlast
    have hpos : 0 < s.suggestions.length := List.length_pos.mpr hne
    unfold handleKeyDown
    rw [if_neg (Nat.pos_iff_ne_zero.mp hpos)]
    show (s.selectedIndex + 1) % s.suggestions.length = 0
    rw [hlast, Nat.sub_add_cancel hpos, Nat.mod_self]
  · intro hne hzero
    have hpos : 0 < s.suggestions.length := List.length_pos.mpr hne
    unfold handleKeyDown
    rw [if_neg (Nat.pos_iff_ne_zero.mp hpos)]
    show (s.selectedIndex + s.suggestions.length - 1) % s.suggestions.length
        = s.suggestions.length - 1
    rw [hzero, Nat.zero_add, Nat.mod_eq_of_lt (Nat.sub_lt hpos Nat.one_pos)]

/-- **C10 (witness).** With two suggestions and the last one highlighted,
ArrowDown wraps the highlight back to position 0. -/
theorem selectedIndex_invariant_witness :
    ((⟨["git", "grep"], 1⟩ : SuggestState).suggestions ≠ []
      ∧ (⟨["git", "grep"], 1⟩ : SuggestState).selectedIndex
          = (⟨["git", "grep"], 1⟩ : SuggestState).suggestions.length - 1)
    ∧ (handleKeyDown ⟨["git", "grep"], 1⟩ ArrowKey.down).selectedIndex = 0 :=
  ⟨⟨by decide, by decide⟩,
    (selectedIndex_invariant 8 [] "" ⟨["git", "grep"], 1⟩ ArrowKey.down []).2.2.2.1
      (by decide) (by decide)⟩

/-!
### C6/C7 — index cache loader
-/

/-- **C6.** The loader returns the persisted cached index exactly when its
age (now minus capture timestamp) is inside the freshness window, writing
nothing; a strictly stale cache record is ignored and the network path is
taken instead; and a successful network fetch is persisted with the
current timestamp and returned. -/
theorem fetcher_cache_spec (env : FetchEnv) (c : CachedIndex) (d : TldrIndex)
    (hcache : env.cache = CacheRead.valid c) :
    (env.now - c.timestamp < CACHE_EXPIRY →
      fetcher env = { result := FetchResult.ok c.data, written := none })
    ∧ (¬env.now - c.timestamp < CACHE_EXPIRY → fetcher env = fetchNetwork env)
    ∧ (env.network = some d → env.writeOk = true →
        fetchNetwork env
          = { result := FetchResult.ok d
              written := some { data := d, timestamp := env.now } }) := by
  refine ⟨?_, ?_, ?_⟩
  · intro h
    unfold fetcher
    rw [hcache]
    dsimp only
    rw [if_pos h]
  · intro h
    unfold fetcher
    rw [hcache]
    dsimp only
    rw [if_neg h]
  · intro hn hw
    unfold fetchNetwork
    rw [hn]
    dsimp only
    rw [hw]
    rfl

/-- **C6 (witness).** A cache record captured at time 0 read at time 1 is
inside the 3-day freshness window and is returned as-is, with no write. -/
theorem fetcher_cache_spec_witness :
    ((⟨CacheRead.valid ⟨demoIndex, 0⟩, 1, some demoIndex, true⟩ : FetchEnv).cache
        = CacheRead.valid ⟨demoIndex, 0⟩)
    ∧ (1 : Int) - 0 < CACHE_EXPIRY
    ∧ fetcher ⟨CacheRead.valid ⟨demoIndex, 0⟩, 1, some demoIndex, true⟩
        = { result := FetchResult.ok demoIndex, written := none } :=
  ⟨rfl, by decide,
    (fetcher_cache_spec ⟨CacheRead.valid ⟨demoIndex, 0⟩, 1, some demoIndex, true⟩
      ⟨demoIndex, 0⟩ demoIndex rfl).1 (by decide)⟩

/-- **C7.** Storage failures never fail the loader: an unavailable,
missing, or corrupt local-storage read is treated as a cache miss and falls
through to the network path; a successful network fetch is returned even
when persisting it fails, in which case the write is swallowed and nothing
is stored. -/
theorem fetcher_storage_resilient (env : FetchEnv) (d : TldrIndex) :
    (env.cache = CacheRead.unavailable ∨ env.cache = CacheRead.missing ∨
        env.cache = CacheRead.corrupt →
      fetcher env = fetchNetwork env)
    ∧ (env.network = some d → (fetchNetwork env).result = FetchResult.ok d)
    ∧ (env.network = some d → env.writeOk = false →
        fetchNetwork env = { result := FetchResult.ok d, written := none }) := by
  refine ⟨?_, ?_, ?_⟩
  · intro h
    unfold fetcher
    rcases h with h | h | h <;> rw [h]
  · intro hn
    unfold fetchNetwork
    rw [hn]
  · intro hn hw
    unfold fetchNetwork
    rw [hn]
    dsimp only
    rw [hw]
    rfl

/-- **C7 (witness).** A corrupt cache read together with a failing cache
write still yields the fetched index, with nothing persisted. -/
theorem fetcher_storage_resilient_witness :
    fetcher ⟨CacheRead.corrupt, 5, some demoIndex, false⟩
      = { result := FetchResult.ok demoIndex, written := none } := by
  have h := fetcher_storage_resilient ⟨CacheRead.corrupt, 5, some demoIndex, false⟩ demoIndex
  rw [h.1 (Or.inr (Or.inr rfl)), h.2.2 rfl rfl]

end TldrWeb
